import Mathlib

/-
Verification of the futures runtime core (future.cc, future.h, status.cc).

The development shallowly embeds the repository's code:
* `Status` / `Result` mirror the status.h / result.h value types (status.cc).
* `ConcreteFutureImpl` and its operations mirror future.cc; since the
  interesting behaviour of `AddCallback` and `DoMarkFinishedOrFailed` is the
  lock discipline and callback firing, these operations additionally return a
  linear trace of the primitive actions they perform (lock acquire/release,
  state publication, notification, callback queueing/firing).  Callbacks are
  identified by natural-number ids; firing a callback records the id together
  with the future state the callback observes.
* `AllComplete` and `AllFinished` mirror the combinators of future.cc, with an
  arbitrary completion interleaving of the inputs modelled as the list of the
  inputs' statuses in completion order, processed left to right by the
  callback body `stepAll`.
* `Compose`, `LazyFuture`, `Promise` and the executors mirror future.h
  (the lazy half of the header present in the sources).  Suppliers,
  continuations and consumers are instrumented to emit a trace of type
  `List alpha` when invoked, to make executed work observable.
-/

namespace Futures

/-- Error codes of status.h, labels enumerated in status.cc CodeAsString. -/
inductive StatusCode where
  | OK
  | OutOfMemory
  | KeyError
  | TypeError
  | Invalid
  | Cancelled
  | IOError
  | CapacityError
  | IndexError
  | UnknownError
  | NotImplemented
  | SerializationError
  | CodeGenError
  | ExpressionValidationError
  | ExecutionError
deriving DecidableEq

/-- Status: an error code plus a message (status.cc: State with code and msg). -/
structure Status where
  code : StatusCode
  msg : String
deriving DecidableEq

/-- The ok status, as built by the static factory returning code OK. -/
def Status.OK : Status := ⟨StatusCode.OK, ""⟩

/-- ok() probe of a status: the code is OK. -/
def Status.ok (s : Status) : Bool := s.code == StatusCode.OK

/-- The Invalid-status factory used by the Promise destructor. -/
def Status.Invalid (m : String) : Status := ⟨StatusCode.Invalid, m⟩

/-- Result of result.h: either a value or a carried non-ok status. -/
inductive Result (T : Type) where
  | ok (v : T)
  | failure (st : Status)
deriving DecidableEq

/-- ok() probe of a result. -/
def Result.isOk {T : Type} : Result T → Bool
  | .ok _ => true
  | .failure _ => false

/-- status() of a result: OK for a value, the carried status otherwise. -/
def Result.status {T : Type} : Result T → Status
  | .ok _ => Status.OK
  | .failure st => st

/-- The tri-state of a future, from future.h as used by future.cc. -/
inductive FutureState where
  | PENDING
  | SUCCESS
  | FAILURE
deriving DecidableEq

/-- Modelled from the spec: IsFutureFinished lives in future.h, which is not
under src/; per spec section 3 the SUCCESS and FAILURE states are collectively
finished and PENDING is not. -/
def IsFutureFinished : FutureState → Bool
  | .PENDING => false
  | .SUCCESS => true
  | .FAILURE => true

/-- The two locks touched by future.cc: the process-wide waiter mutex and the
future's own mutex. -/
inductive LockId where
  | globalWaiter
  | futureMutex
deriving DecidableEq

/-- Primitive actions performed by the future.cc operations, recorded in
order.  callbackFired carries the state of the future the callback is handed. -/
inductive Event where
  | lockAcquire (l : LockId)
  | lockRelease (l : LockId)
  | stateSet (st : FutureState)
  | notifyAll
  | callbackFired (id : Nat) (observed : FutureState)
  | callbackQueued (id : Nat)
deriving DecidableEq

/-- The mutable core of future.cc: the state and the queued callback ids in
registration order. -/
structure ConcreteFutureImpl where
  state_ : FutureState
  callbacks_ : List Nat
deriving DecidableEq

/-- AddCallback from future.cc: under the future's mutex, if the future is
finished, unlock and invoke the callback immediately on the finished future;
otherwise append it to the queue before unlocking. -/
def ConcreteFutureImpl.AddCallback (f : ConcreteFutureImpl) (id : Nat) :
    ConcreteFutureImpl × List Event :=
  if IsFutureFinished f.state_ then
    (f, [Event.lockAcquire LockId.futureMutex,
         Event.lockRelease LockId.futureMutex,
         Event.callbackFired id f.state_])
  else
    ({ f with callbacks_ := f.callbacks_ ++ [id] },
     [Event.lockAcquire LockId.futureMutex,
      Event.callbackQueued id,
      Event.lockRelease LockId.futureMutex])

/-- DoMarkFinishedOrFailed from future.cc: take the global waiter lock, then
the future's own lock, publish the new state, release both locks (reverse
order), notify all waiters, then drain the callback queue and fire each
callback on the finished future, outside every lock. -/
def ConcreteFutureImpl.DoMarkFinishedOrFailed (f : ConcreteFutureImpl)
    (state : FutureState) : ConcreteFutureImpl × List Event :=
  ({ state_ := state, callbacks_ := [] },
   [Event.lockAcquire LockId.globalWaiter,
    Event.lockAcquire LockId.futureMutex,
    Event.stateSet state,
    Event.lockRelease LockId.futureMutex,
    Event.lockRelease LockId.globalWaiter,
    Event.notifyAll]
   ++ f.callbacks_.map (fun id => Event.callbackFired id state))

/-- DoMarkFinished from future.cc. -/
def ConcreteFutureImpl.DoMarkFinished (f : ConcreteFutureImpl) :
    ConcreteFutureImpl × List Event :=
  f.DoMarkFinishedOrFailed FutureState.SUCCESS

/-- DoMarkFailed from future.cc. -/
def ConcreteFutureImpl.DoMarkFailed (f : ConcreteFutureImpl) :
    ConcreteFutureImpl × List Event :=
  f.DoMarkFinishedOrFailed FutureState.FAILURE

/-- Modelled from the spec: the typed Future handle layer of future.h (the
MarkFinished / MarkFailed entry points wrapping FutureImpl) is not under src/.
Per spec sections 4.1 and 7, marking an already-finished core is a programmer
error that must fail or assert; the abort is modelled as none, while a valid
mark delegates to DoMarkFinishedOrFailed as embedded from future.cc. -/
def MarkFinishedChecked (f : ConcreteFutureImpl) (state : FutureState) :
    Option (ConcreteFutureImpl × List Event) :=
  if IsFutureFinished f.state_ then none
  else some (f.DoMarkFinishedOrFailed state)

/- Trace observations (specification-side helpers, not part of the source). -/

/-- The subsequence of callback firings in a trace: ids with observed state. -/
def firedTrace : List Event → List (Nat × FutureState)
  | [] => []
  | Event.callbackFired id st :: rest => (id, st) :: firedTrace rest
  | _ :: rest => firedTrace rest

/-- The subsequence of callback queueings in a trace. -/
def queuedTrace : List Event → List Nat
  | [] => []
  | Event.callbackQueued id :: rest => id :: queuedTrace rest
  | _ :: rest => queuedTrace rest

/-- Checks that every callback firing in the trace happens while zero locks
are held, threading the current lock depth. -/
def firedOutsideLocksFrom : Nat → List Event → Bool
  | _, [] => true
  | d, Event.lockAcquire _ :: rest => firedOutsideLocksFrom (d + 1) rest
  | d, Event.lockRelease _ :: rest => firedOutsideLocksFrom (d - 1) rest
  | d, Event.callbackFired _ _ :: rest =>
      (d == 0) && firedOutsideLocksFrom d rest
  | d, _ :: rest => firedOutsideLocksFrom d rest

/-- No callback in the trace fires with a lock held. -/
def firedOutsideLocks (tr : List Event) : Bool := firedOutsideLocksFrom 0 tr

/-- Checks that every callback queueing happens with at least one lock held. -/
def queuedUnderLockFrom : Nat → List Event → Bool
  | _, [] => true
  | d, Event.lockAcquire _ :: rest => queuedUnderLockFrom (d + 1) rest
  | d, Event.lockRelease _ :: rest => queuedUnderLockFrom (d - 1) rest
  | d, Event.callbackQueued _ :: rest =>
      (d != 0) && queuedUnderLockFrom d rest
  | d, _ :: rest => queuedUnderLockFrom d rest

/-- Every callback queueing in the trace happens under a lock. -/
def queuedUnderLock (tr : List Event) : Bool := queuedUnderLockFrom 0 tr

/-- Checks that every callback firing is preceded by a state publication. -/
def firedAfterStateSetFrom : Bool → List Event → Bool
  | _, [] => true
  | _, Event.stateSet _ :: rest => firedAfterStateSetFrom true rest
  | seen, Event.callbackFired _ _ :: rest =>
      seen && firedAfterStateSetFrom seen rest
  | seen, _ :: rest => firedAfterStateSetFrom seen rest

/-- Every callback firing in the trace strictly follows a state publication. -/
def firedAfterStateSet (tr : List Event) : Bool :=
  firedAfterStateSetFrom false tr

/- AllComplete combinator (future.cc lines 142 to 170). -/

/-- The shared state of AllComplete: the remaining count and the resolution of
the output future (none while pending, some st once finished with st). -/
structure AllCompleteState where
  n_remaining : Nat
  out : Option Status
deriving DecidableEq

/-- What AllComplete sets up on entry: the initial shared state of the output
future and how many callbacks it registered on the inputs. -/
structure AllCompleteSetup where
  init : AllCompleteState
  callbacksRegistered : Nat
deriving DecidableEq

/-- AllComplete entry from future.cc: an empty input vector immediately
returns an already-finished success future, registering no callbacks;
otherwise the output future starts pending, n_remaining starts at the number
of inputs, and one callback is registered per input. -/
def AllComplete (n : Nat) : AllCompleteSetup :=
  if n = 0 then ⟨⟨0, some Status.OK⟩, 0⟩ else ⟨⟨n, none⟩, n⟩

/-- The body of the callback AllComplete registers on every input, run when
that input completes with status st.  On failure: under the shared mutex, if
the output is not yet finished, finish it with st.  On success: fetch_sub the
remaining count (which returns the previous value) and, when the previous
value was 1, finish the output with success. -/
def stepAll (s : AllCompleteState) (st : Status) : AllCompleteState :=
  if st.ok = false then
    match s.out with
    | none => ⟨s.n_remaining, some st⟩
    | some _ => s
  else if s.n_remaining ≠ 1 then ⟨s.n_remaining - 1, s.out⟩
  else ⟨s.n_remaining - 1, some Status.OK⟩

/-- The AllComplete shared state after the first k of the inputs have
completed; events lists the statuses of the inputs in completion order. -/
def runAllComplete (events : List Status) (k : Nat) : AllCompleteState :=
  (events.take k).foldl stepAll (AllComplete events.length).init

/-- How many of the statuses are ok. -/
def countOk (l : List Status) : Nat := l.countP (fun st => st.ok)

/-- The first non-ok status of the list, if any. -/
def firstFailure (l : List Status) : Option Status :=
  l.find? (fun st => !st.ok)

/- AllFinished combinator (future.cc lines 172 to 181). -/

/-- The reduction AllFinished passes to Then: scan the collected results in
collection order and return the status of the first non-ok one, else OK. -/
def allFinishedReduce {T : Type} : List (Result T) → Status
  | [] => Status.OK
  | r :: rest => if r.isOk then allFinishedReduce rest else r.status

/-- Modelled from the spec: the All combinator is declared in future.h, which
is not under src/.  Per spec section 4.3 it resolves only after all of its
inputs have finished and collects every individual result in collection
order; its output is modelled as a function of the number k of inputs that
have finished so far. -/
def AllOutput {T : Type} (results : List (Result T)) (k : Nat) :
    Option (List (Result T)) :=
  if k < results.length then none else some results

/-- AllFinished from future.cc: All(futures) followed by the first-failure
reduction, again as a function of how many inputs have finished. -/
def AllFinishedOutput {T : Type} (results : List (Result T)) (k : Nat) :
    Option Status :=
  (AllOutput results k).map allFinishedReduce

/- LazyFuture, Promise and executors (future.h, present in the sources). -/

variable {α E T V : Type}

/-- A supplier of future.h, instrumented: invoking it emits a trace of
executed work of type List alpha alongside its result. -/
def SupplierT (α T : Type) : Type := Unit → List α × Result T

/-- A map task of future.h, instrumented like SupplierT. -/
def MapTask (α T V : Type) : Type := Result T → List α × Result V

/-- A consumer of future.h: receives the result and emits its trace. -/
def ConsumerT (α T : Type) : Type := Result T → List α

/-- Compose from future.h: builds the Composition closure whose invocation
runs the supplier, then the continuation on the supplier's result.  Building
the closure itself invokes neither. -/
def Compose (supplier : SupplierT α T) (continuation : MapTask α T V) :
    SupplierT α V :=
  fun u =>
    let r := supplier u
    let v := continuation r.2
    (r.1 ++ v.1, v.2)

/-- LazyFuture of future.h: a held supplier plus an executor reference
(modelled as an abstract value of type E compared for identity). -/
structure LazyFuture (α E T : Type) where
  supplier_ : SupplierT α T
  executor_ : E

/-- Then from future.h: composes the held supplier with the map task and
returns a new LazyFuture sharing the same executor; nothing is invoked. -/
def LazyFuture.Then (fut : LazyFuture α E T) (map_func : MapTask α T V) :
    LazyFuture α E V :=
  ⟨Compose fut.supplier_ map_func, fut.executor_⟩

/-- The FutureRunningTask built by ConsumeAsync: invokes the supplier, then
hands its result to the consumer. -/
def FutureRunningTask (supplier : SupplierT α T) (consumer : ConsumerT α T) :
    Unit → List α :=
  fun u =>
    let r := supplier u
    r.1 ++ consumer r.2

/-- Spawn of InlineExecutor from future.h: runs the task immediately and
synchronously on the calling thread. -/
def InlineExecutor.Spawn (task : Unit → List α) : List α := task ()

/-- ConsumeAsync from future.h, under the inline executor: builds the
FutureRunningTask from the held supplier and the consumer and spawns it. -/
def LazyFuture.ConsumeAsyncInline (fut : LazyFuture α E T)
    (consumer : ConsumerT α T) : List α :=
  InlineExecutor.Spawn (FutureRunningTask fut.supplier_ consumer)

/-- Promise of future.h: holds the one-shot completion callable; an empty
std function (after Fulfill cleared it) is modelled as none. -/
structure Promise (α T : Type) where
  callback_ : Option (ConsumerT α T)

/-- The Promise destructor from future.h: if the callback is still held, the
promise was never fulfilled, and the callable is invoked with the
synthesized abandoned-promise failure. -/
def Promise.destroy (p : Promise α T) : List α :=
  match p.callback_ with
  | some cb => cb (Result.failure (Status.Invalid "Abandoned promise"))
  | none => []

/-- Fulfill from future.h: invokes the held callable with the value, then
clears it.  Invoking an already-empty std function throws, modelled as
none. -/
def Promise.Fulfill (p : Promise α T) (val : Result T) :
    Option (List α × Promise α T) :=
  match p.callback_ with
  | some cb => some (cb val, ⟨none⟩)
  | none => none

/-- A thread spawned by ThreadPerTaskExecutor: a fresh thread identity and
the task it was created to run. -/
structure SpawnedThread (α : Type) where
  tid : Nat
  task : Unit → List α

/-- ThreadPerTaskExecutor from future.h: owns the vector of spawned
threads. -/
structure ThreadPerTaskExecutor (α : Type) where
  threads : List (SpawnedThread α)

/-- Spawn from future.h: pushes a new dedicated thread running the task onto
the vector; its identity is fresh (modelled by its position). -/
def ThreadPerTaskExecutor.Spawn (e : ThreadPerTaskExecutor α)
    (task : Unit → List α) : ThreadPerTaskExecutor α :=
  ⟨e.threads ++ [⟨e.threads.length, task⟩]⟩

/-- The ThreadPerTaskExecutor destructor from future.h: joins (then deletes)
every spawned thread, in order; the returned list is the joined thread
identities. -/
def ThreadPerTaskExecutor.teardown (e : ThreadPerTaskExecutor α) : List Nat :=
  e.threads.map (fun t => t.tid)

/-- A whole submission history: every task of the list spawned in order on an
initially empty executor. -/
def spawnAll (tasks : List (Unit → List α)) : ThreadPerTaskExecutor α :=
  tasks.foldl ThreadPerTaskExecutor.Spawn ⟨[]⟩

/- Helper lemmas about the trace observers on callback-firing suffixes. -/

lemma firedTrace_map_fired (l : List Nat) (st : FutureState) :
    firedTrace (l.map (fun id => Event.callbackFired id st)) =
      l.map (fun id => (id, st)) := by
  induction l with
  | nil => rfl
  | cons a l ih => simp [firedTrace, ih]

lemma queuedTrace_map_fired (l : List Nat) (st : FutureState) :
    queuedTrace (l.map (fun id => Event.callbackFired id st)) = [] := by
  induction l with
  | nil => rfl
  | cons a l ih => simp [queuedTrace, ih]

lemma firedOutsideLocksFrom_map_fired (l : List Nat) (st : FutureState) :
    firedOutsideLocksFrom 0 (l.map (fun id => Event.callbackFired id st)) =
      true := by
  induction l with
  | nil => rfl
  | cons a l ih => simp [firedOutsideLocksFrom, ih]

lemma firedAfterStateSetFrom_map_fired (l : List Nat) (st : FutureState) :
    firedAfterStateSetFrom true (l.map (fun id => Event.callbackFired id st)) =
      true := by
  induction l with
  | nil => rfl
  | cons a l ih => simp [firedAfterStateSetFrom, ih]

/-- C3: for every core, all callbacks registered before completion are fired
exactly once, in registration order, each observing the published finished
state, strictly after the state transition, with no lock held while any
callback runs; the queue is drained at completion. -/
theorem mark_fires_callbacks_in_order (f : ConcreteFutureImpl)
    (st : FutureState) (hs : IsFutureFinished st = true) :
    firedTrace (f.DoMarkFinishedOrFailed st).2 =
        f.callbacks_.map (fun id => (id, st)) ∧
    firedAfterStateSet (f.DoMarkFinishedOrFailed st).2 = true ∧
    firedOutsideLocks (f.DoMarkFinishedOrFailed st).2 = true ∧
    IsFutureFinished (f.DoMarkFinishedOrFailed st).1.state_ = true ∧
    (f.DoMarkFinishedOrFailed st).1.callbacks_ = [] := by
  refine ⟨?_, ?_, ?_, hs, rfl⟩ <;>
    simp [ConcreteFutureImpl.DoMarkFinishedOrFailed, firedTrace,
      firedAfterStateSet, firedAfterStateSetFrom, firedOutsideLocks,
      firedOutsideLocksFrom, firedTrace_map_fired,
      firedAfterStateSetFrom_map_fired, firedOutsideLocksFrom_map_fired]

theorem mark_fires_callbacks_in_order_witness :
    IsFutureFinished FutureState.SUCCESS = true ∧
    (firedTrace ((ConcreteFutureImpl.mk FutureState.PENDING
          [0, 1]).DoMarkFinishedOrFailed FutureState.SUCCESS).2 =
        (ConcreteFutureImpl.mk FutureState.PENDING [0, 1]).callbacks_.map
          (fun id => (id, FutureState.SUCCESS)) ∧
      firedAfterStateSet ((ConcreteFutureImpl.mk FutureState.PENDING
          [0, 1]).DoMarkFinishedOrFailed FutureState.SUCCESS).2 = true ∧
      firedOutsideLocks ((ConcreteFutureImpl.mk FutureState.PENDING
          [0, 1]).DoMarkFinishedOrFailed FutureState.SUCCESS).2 = true ∧
      IsFutureFinished ((ConcreteFutureImpl.mk FutureState.PENDING
          [0, 1]).DoMarkFinishedOrFailed FutureState.SUCCESS).1.state_ =
        true ∧
      ((ConcreteFutureImpl.mk FutureState.PENDING
          [0, 1]).DoMarkFinishedOrFailed FutureState.SUCCESS).1.callbacks_ =
        []) :=
  ⟨by decide,
   mark_fires_callbacks_in_order (ConcreteFutureImpl.mk FutureState.PENDING
     [0, 1]) FutureState.SUCCESS (by decide)⟩

/-- C4: add_callback on an already-finished core fires the callback
immediately and synchronously on the calling thread, after releasing the
lock, with the finished state visible to it, and queues nothing; on a pending
core it appends the callback to the queue under the lock and fires nothing. -/
theorem addCallback_immediate_or_queued (f : ConcreteFutureImpl) (id : Nat) :
    (f.AddCallback id).1.state_ = f.state_ ∧
    (f.AddCallback id).1.callbacks_ =
      (if IsFutureFinished f.state_ then f.callbacks_
       else f.callbacks_ ++ [id]) ∧
    firedTrace (f.AddCallback id).2 =
      (if IsFutureFinished f.state_ then [(id, f.state_)] else []) ∧
    queuedTrace (f.AddCallback id).2 =
      (if IsFutureFinished f.state_ then [] else [id]) ∧
    firedOutsideLocks (f.AddCallback id).2 = true ∧
    queuedUnderLock (f.AddCallback id).2 = true := by
  cases h : IsFutureFinished f.state_ <;>
    simp [ConcreteFutureImpl.AddCallback, h, firedTrace, queuedTrace,
      firedOutsideLocks, firedOutsideLocksFrom, queuedUnderLock,
      queuedUnderLockFrom]

/-- C1: a pending core can be marked finished or failed exactly once; the
mark succeeds and finishes the core, and a second mark of either kind on the
now-finished core is rejected as a programmer-error abort (none) instead of
silently transitioning the state or re-firing callbacks. -/
theorem markFinished_exactly_once (f : ConcreteFutureImpl)
    (st st' : FutureState) (hp : IsFutureFinished f.state_ = false)
    (hs : IsFutureFinished st = true) :
    ∃ f' tr, MarkFinishedChecked f st = some (f', tr) ∧
      IsFutureFinished f'.state_ = true ∧
      MarkFinishedChecked f' st' = none := by
  refine ⟨(f.DoMarkFinishedOrFailed st).1, (f.DoMarkFinishedOrFailed st).2,
    ?_, ?_, ?_⟩
  · simp [MarkFinishedChecked, hp]
  · simpa [ConcreteFutureImpl.DoMarkFinishedOrFailed] using hs
  · simp [MarkFinishedChecked, ConcreteFutureImpl.DoMarkFinishedOrFailed, hs]

theorem markFinished_exactly_once_witness :
    IsFutureFinished (ConcreteFutureImpl.mk FutureState.PENDING
        [0]).state_ = false ∧
    IsFutureFinished FutureState.SUCCESS = true ∧
    (∃ f' tr, MarkFinishedChecked (ConcreteFutureImpl.mk FutureState.PENDING
          [0]) FutureState.SUCCESS = some (f', tr) ∧
        IsFutureFinished f'.state_ = true ∧
        MarkFinishedChecked f' FutureState.FAILURE = none) :=
  ⟨by decide, by decide,
   markFinished_exactly_once (ConcreteFutureImpl.mk FutureState.PENDING [0])
     FutureState.SUCCESS FutureState.FAILURE (by decide) (by decide)⟩

/-- C6: Then builds the composition of the held supplier with the
continuation, sharing the same executor, without invoking any supplied work;
the composed supplier runs the original supplier and then the continuation
on its result, and consuming the composed future under the inline executor
performs the supplied work and hands the composed value to the consumer,
invoked once, synchronously, in the returned trace itself. -/
theorem then_composes_without_executing (s : SupplierT α T) (ex : E)
    (f : MapTask α T V) (c : ConsumerT α V) :
    (LazyFuture.Then ⟨s, ex⟩ f).supplier_ = Compose s f ∧
    (LazyFuture.Then ⟨s, ex⟩ f).executor_ = ex ∧
    Compose s f () = ((s ()).1 ++ (f (s ()).2).1, (f (s ()).2).2) ∧
    (LazyFuture.Then ⟨s, ex⟩ f).ConsumeAsyncInline c =
      (s ()).1 ++ ((f (s ()).2).1 ++ c (f (s ()).2).2) := by
  refine ⟨rfl, rfl, rfl, ?_⟩
  simp [LazyFuture.ConsumeAsyncInline, LazyFuture.Then, InlineExecutor.Spawn,
    FutureRunningTask, Compose, List.append_assoc]

/-- C7: a Promise destroyed while still holding its completion callable
(never fulfilled) invokes that callable with the synthesized carried
abandoned-promise failure, which is a non-ok status. -/
theorem promise_abandonment_invokes_failure (cb : ConsumerT α T) :
    (Promise.mk (some cb)).destroy =
      cb (Result.failure (Status.Invalid "Abandoned promise")) ∧
    (Result.failure (Status.Invalid "Abandoned promise") : Result T).isOk =
      false ∧
    Status.ok (Status.Invalid "Abandoned promise") = false := by
  exact ⟨rfl, rfl, rfl⟩

/-- C8: AllComplete on an empty input list returns a future already resolved
to success, immediately, registering no callbacks on any input. -/
theorem allComplete_empty_immediate :
    (AllComplete 0).init.out = some Status.OK ∧
    Status.ok Status.OK = true ∧
    (AllComplete 0).callbacksRegistered = 0 ∧
    runAllComplete [] 0 = ⟨0, some Status.OK⟩ :=
  ⟨rfl, rfl, rfl, rfl⟩

/-- C10: the Promise completion callable is invoked at most once per
lifetime: Fulfill invokes it and clears the slot, destroying a cleared
promise invokes nothing, and the full fulfill-then-destroy lifetime trace is
exactly one invocation. -/
theorem promise_fulfill_at_most_once (cb : ConsumerT α T) (val : Result T) :
    (Promise.mk (some cb)).Fulfill val = some (cb val, Promise.mk none) ∧
    Promise.destroy (Promise.mk (none : Option (ConsumerT α T))) = [] ∧
    ((Promise.mk (some cb)).Fulfill val).map
        (fun r => r.1 ++ r.2.destroy) = some (cb val) := by
  refine ⟨rfl, rfl, ?_⟩
  simp [Promise.Fulfill, Promise.destroy]

/- Helper lemmas for the thread-per-task executor. -/

lemma spawnAll_foldl_tasks (tasks : List (Unit → List α)) :
    ∀ e : ThreadPerTaskExecutor α,
      (tasks.foldl ThreadPerTaskExecutor.Spawn e).threads.map
          (fun t => t.task) =
        e.threads.map (fun t => t.task) ++ tasks := by
  induction tasks with
  | nil => intro e; simp
  | cons t ts ih =>
      intro e
      simp [List.foldl_cons, ih, ThreadPerTaskExecutor.Spawn]

lemma spawnAll_foldl_tids (tasks : List (Unit → List α)) :
    ∀ e : ThreadPerTaskExecutor α,
      (tasks.foldl ThreadPerTaskExecutor.Spawn e).threads.map
          (fun t => t.tid) =
        e.threads.map (fun t => t.tid) ++
          List.range' e.threads.length tasks.length := by
  induction tasks with
  | nil => intro e; simp
  | cons t ts ih =>
      intro e
      have h := ih (e.Spawn t)
      simp [ThreadPerTaskExecutor.Spawn] at h
      simp [List.foldl_cons, ThreadPerTaskExecutor.Spawn, h,
        List.range'_succ]

/-- C9: spawning a list of tasks on a ThreadPerTaskExecutor puts each task on
its own dedicated freshly-spawned thread (distinct identities, one per task,
in submission order), and teardown joins exactly the spawned threads, each
exactly once, so no submitted work outlives the executor. -/
theorem thread_per_task_joins_all (tasks : List (Unit → List α)) :
    (spawnAll tasks).threads.map (fun t => t.task) = tasks ∧
    (spawnAll tasks).threads.map (fun t => t.tid) =
      List.range tasks.length ∧
    (spawnAll tasks).teardown = List.range tasks.length ∧
    (spawnAll tasks).teardown.Nodup := by
  have htask := spawnAll_foldl_tasks tasks (⟨[]⟩ : ThreadPerTaskExecutor α)
  have htid := spawnAll_foldl_tids tasks (⟨[]⟩ : ThreadPerTaskExecutor α)
  simp only [List.map_nil, List.nil_append] at htask htid
  refine ⟨htask, ?_, ?_, ?_⟩
  · rw [spawnAll, htid]
    simp [List.range_eq_range']
  · rw [ThreadPerTaskExecutor.teardown, spawnAll, htid]
    simp [List.range_eq_range']
  · rw [ThreadPerTaskExecutor.teardown, spawnAll, htid]
    simpa [List.range_eq_range'] using List.nodup_range tasks.length

/- Helper lemmas for the AllComplete characterization. -/

lemma countOk_eq_of_firstFailure_none {l : List Status}
    (h : firstFailure l = none) : countOk l = l.length := by
  rw [countOk, List.countP_eq_length]
  intro a ha
  have hn := (List.find?_eq_none.mp h) a ha
  simpa using hn

lemma countOk_lt_of_firstFailure_some {l : List Status} {bad : Status}
    (h : firstFailure l = some bad) : countOk l < l.length := by
  have hmem := List.mem_of_find?_eq_some h
  have hbad : bad.ok = false := by simpa using List.find?_some h
  refine lt_of_le_of_ne (List.countP_le_length _) ?_
  intro he
  have := List.countP_eq_length.mp he bad hmem
  simp [hbad] at this

lemma firstFailure_append (l₁ l₂ : List Status) :
    firstFailure (l₁ ++ l₂) = (firstFailure l₁).or (firstFailure l₂) := by
  simp [firstFailure, List.find?_append]

/-- C2: characterization of AllComplete under every interleaving: after the
first k input completions (statuses listed in completion order), the
remaining count is the inputs minus the successes seen, and the output future
is resolved with the first observed failure as soon as one occurred, stays
resolved with it thereafter ignoring later completions, and otherwise is
resolved with success exactly when all inputs have succeeded. -/
theorem allComplete_first_failure_wins (events : List Status) (k : Nat)
    (hk : k ≤ events.length) :
    runAllComplete events k =
      ⟨events.length - countOk (events.take k),
       match firstFailure (events.take k) with
       | some bad => some bad
       | none =>
           if k = events.length then some Status.OK else none⟩ := by
  induction k with
  | zero =>
      by_cases h0 : events.length = 0
      · simp [runAllComplete, AllComplete, h0, countOk, firstFailure]
      · have hne : ¬(0 = events.length) := fun h => h0 h.symm
        simp [runAllComplete, AllComplete, h0, countOk, firstFailure, hne]
  | succ k ih =>
      have hk' : k ≤ events.length := Nat.le_of_succ_le hk
      have hklt : k < events.length := hk
      have htake : events.take (k + 1) = events.take k ++ [events[k]] := by
        rw [List.take_succ, List.getElem?_eq_getElem hklt]
        rfl
      have hlen : (events.take k).length = k := by
        simp [List.length_take, Nat.min_eq_left hk']
      have hrun : runAllComplete events (k + 1) =
          stepAll (runAllComplete events k) events[k] := by
        rw [runAllComplete, htake, List.foldl_append]
        rfl
      rw [hrun, ih hk']
      have hcount : countOk (events.take (k + 1)) =
          countOk (events.take k) + (if events[k].ok then 1 else 0) := by
        simp only [countOk]
        rw [htake, List.countP_append, List.countP_cons]
        simp
      have hff : firstFailure (events.take (k + 1)) =
          (firstFailure (events.take k)).or (firstFailure [events[k]]) := by
        rw [htake, firstFailure_append]
      rcases hfk : firstFailure (events.take k) with _ | bad
      · -- no failure among the first k completions: all of them succeeded
        have hall : countOk (events.take k) = k := by
          rw [countOk_eq_of_firstFailure_none hfk, hlen]
        rw [hff, hfk]
        cases hao : events[k].ok with
        | false =>
            -- this completion is the first failure: it resolves the output
            have hfa : firstFailure [events[k]] = some events[k] := by
              simp [firstFailure, List.find?_cons, hao]
            rw [hfa]
            simp only [hfk, hall, hcount, hao, Option.none_or]
            simp [stepAll, hao, Nat.ne_of_lt hklt]
        | true =>
            have hfa : firstFailure [events[k]] = none := by
              simp [firstFailure, List.find?_cons, hao]
            rw [hfa]
            simp only [hfk, hall, hcount, hao, Option.none_or]
            by_cases hlast : k + 1 = events.length
            · -- the last success resolves the output with success
              have h1 : events.length - k = 1 := by omega
              simp [stepAll, hao, Nat.ne_of_lt hklt, h1, hlast]
            · -- successes remain outstanding: the output stays pending
              have h1 : events.length - k ≠ 1 := by omega
              have h2 : events.length - (k + 1) = events.length - k - 1 := by
                omega
              simp [stepAll, hao, Nat.ne_of_lt hklt, h1, hlast, h2]
      · -- the output was already resolved with the first failure: later
        -- completions of either kind leave it untouched
        have hc : countOk (events.take k) < k := by
          have := countOk_lt_of_firstFailure_some hfk
          omega
        rw [hff, hfk]
        have hor : (some bad).or (firstFailure [events[k]]) = some bad := rfl
        rw [hor]
        cases hao : events[k].ok with
        | false =>
            simp [stepAll, hao, hcount]
        | true =>
            have h1 : events.length - countOk (events.take k) ≠ 1 := by
              omega
            have h2 : events.length - (countOk (events.take k) + 1) =
                events.length - countOk (events.take k) - 1 := by omega
            simp [stepAll, hao, hcount, h1, h2]

theorem allComplete_first_failure_wins_witness :
    2 ≤ [Status.OK, Status.Invalid "boom",
        Status.Invalid "later"].length ∧
    runAllComplete [Status.OK, Status.Invalid "boom",
        Status.Invalid "later"] 2 =
      ⟨[Status.OK, Status.Invalid "boom", Status.Invalid "later"].length -
         countOk ([Status.OK, Status.Invalid "boom",
            Status.Invalid "later"].take 2),
       match firstFailure ([Status.OK, Status.Invalid "boom",
          Status.Invalid "later"].take 2) with
       | some bad => some bad
       | none =>
           if 2 = [Status.OK, Status.Invalid "boom",
               Status.Invalid "later"].length then some Status.OK
           else none⟩ :=
  ⟨by decide,
   allComplete_first_failure_wins [Status.OK, Status.Invalid "boom",
     Status.Invalid "later"] 2 (by decide)⟩

/- Helper lemma for AllFinished: the loop of future.cc returns the status of
the first non-ok result in collection order. -/

lemma allFinishedReduce_eq_find {T : Type} (results : List (Result T)) :
    allFinishedReduce results =
      (match results.find? (fun r => !r.isOk) with
       | some r => r.status
       | none => Status.OK) := by
  induction results with
  | nil => rfl
  | cons r rest ih =>
      cases hr : r.isOk with
      | false => simp [allFinishedReduce, List.find?_cons, hr]
      | true => simp [allFinishedReduce, List.find?_cons, hr, ih]

/-- C5: AllFinished stays pending until every input has finished, and once
all have finished it resolves with the status of the earliest-indexed non-ok
result in collection order, or success when every result is ok. -/
theorem allFinished_waits_and_reports_first_failure {T : Type}
    (results : List (Result T)) (k : Nat) (_hk : k ≤ results.length) :
    AllFinishedOutput results k =
      (if k < results.length then none
       else some (match results.find? (fun r => !r.isOk) with
                  | some r => r.status
                  | none => Status.OK)) := by
  by_cases h : k < results.length
  · simp [AllFinishedOutput, AllOutput, h]
  · simp [AllFinishedOutput, AllOutput, h, allFinishedReduce_eq_find]

theorem allFinished_waits_witness :
    2 ≤ [Result.ok (), Result.failure (Status.Invalid "first"),
        Result.failure (Status.Invalid "second")].length ∧
    AllFinishedOutput [Result.ok (),
        Result.failure (Status.Invalid "first"),
        Result.failure (Status.Invalid "second")] 2 =
      (if 2 < [Result.ok (), Result.failure (Status.Invalid "first"),
           Result.failure (Status.Invalid "second")].length then none
       else some (match [Result.ok (),
            Result.failure (Status.Invalid "first"),
            Result.failure (Status.Invalid "second")].find?
              (fun r => !r.isOk) with
          | some r => r.status
          | none => Status.OK)) :=
  ⟨by decide,
   allFinished_waits_and_reports_first_failure [Result.ok (),
     Result.failure (Status.Invalid "first"),
     Result.failure (Status.Invalid "second")] 2 (by decide)⟩

end Futures
